import Mathlib

/-!
Shallow embedding of the expression-rewriting pass in
`src/plan/expression_rewriter.go` (package `plan`), together with proofs
about the properties its specification states.

Conventions of the embedding:
* Go machine integers that matter here are only lengths and indices, so
  plain `Nat` is used.
* Fallible Go functions returning `(T, error)` become `Except String T`
  (or an explicit `Option T × Option String` pair where the Go call site
  reads the value before checking the error, which is behaviourally
  relevant).
* The working stack `er.ctxStack` is held top-first: Go's
  `er.ctxStack[len(er.ctxStack)-1-k]` is `ctxStack.getD k default`, and
  `append` is `cons`.
* Collaborators whose Go source is outside `src/` (the `expression`,
  `ast` and `variable` packages and the plan builders) are modelled from
  the spec; each such definition carries a doc comment saying so.
-/

set_option autoImplicit false

namespace Plan

/-! ## Basic data model: types, datums, columns, expressions -/

/-- Field/result types as used by this pass.  `fnil` models a Go
`nil *types.FieldType` (the rewriter passes `nil` as the return type of
some row-constructor functions). -/
inductive FieldType where
  | fnil
  | ftiny
  | fstring
  | fnull
  | frow
  | flong
  deriving DecidableEq, Repr, Inhabited

/-- A literal value (`types.Datum`).  The zero Go `Datum` has kind
`KindNull` and is modelled as `.null`. -/
inductive Datum where
  | null
  | int (n : Int)
  | str (s : String)
  | row (ds : List Datum)
  deriving Inhabited

/-- A schema column (`*expression.Column`): qualified name plus type. -/
structure Column where
  dbName : String
  tblName : String
  colName : String
  retType : FieldType
  deriving DecidableEq, Repr, Inhabited

/-- `expression.Schema`: an ordered sequence of columns. -/
abbrev Schema := List Column

/-- A column name appearing in the AST (`*ast.ColumnName`); empty
qualifier strings mean "unqualified". -/
structure ColumnName where
  dbName : String
  tblName : String
  colName : String
  deriving DecidableEq, Repr

/-- `expression.Expression`: the expression representation this pass
produces.  `scalarFunc` covers `*expression.ScalarFunction` (function
name, ordered arguments, return type); `correlatedColumn` wraps a column
borrowed from an enclosing scope. -/
inductive Expression where
  | column (c : Column)
  | correlatedColumn (c : Column)
  | constant (value : Datum) (retType : FieldType)
  | scalarFunc (funcName : String) (args : List Expression) (retType : FieldType)

instance : Inhabited Expression := ⟨.constant .null .fnull⟩

/-- `Expression.Clone` returns a structural copy; in the embedding a copy
is the value itself. -/
def Expression.Clone (e : Expression) : Expression := e

mutual

/-- Row-nesting depth of a datum, used as recursion fuel. -/
def datumDepth : Datum → Nat
  | .row ds => 1 + datumListDepth ds
  | _ => 1

/-- Maximum `datumDepth` over a list. -/
def datumListDepth : List Datum → Nat
  | [] => 0
  | d :: ds => max (datumDepth d) (datumListDepth ds)

end

mutual

/-- Row-nesting depth of an expression, used as recursion fuel for
`constructBinaryOpFunction`. -/
def exprDepth : Expression → Nat
  | .constant d _ => 1 + datumDepth d
  | .scalarFunc _ args _ => 1 + exprListDepth args
  | _ => 1

/-- Maximum `exprDepth` over a list. -/
def exprListDepth : List Expression → Nat
  | [] => 0
  | e :: es => max (exprDepth e) (exprListDepth es)

end

/-- `Expression.GetType`. -/
def Expression.GetType : Expression → FieldType
  | .column c => c.retType
  | .correlatedColumn c => c.retType
  | .constant _ tp => tp
  | .scalarFunc _ _ tp => tp

/-! Function-name constants of the `ast` package and the `opcode.Ops`
name table, as used by the rewriter. -/

def astRowFunc : String := "row"
def astEQ : String := "eq"
def astNE : String := "ne"
def astNullEQ : String := "nulleq"
def astLT : String := "lt"
def astLE : String := "le"
def astGT : String := "gt"
def astGE : String := "ge"
def astAndAnd : String := "and"
def astOrOr : String := "or"
def astUnaryNot : String := "not"
def astUnaryMinus : String := "unaryminus"
def astBitNeg : String := "bitneg"
def astIn : String := "in"
def astSetVar : String := "setvar"
def astGetVar : String := "getvar"
def astIsNull : String := "isnull"

/-- The comparison/unary opcodes of `parser/opcode` that this pass
dispatches on. -/
inductive Opcode where
  | EQ | NE | NullEQ | LT | LE | GT | GE
  | Plus | Minus | BitNeg | Not
  deriving DecidableEq, Repr

/-- `opcode.Ops`: opcode to function-name table. -/
def opcodeOps : Opcode → String
  | .EQ => astEQ
  | .NE => astNE
  | .NullEQ => astNullEQ
  | .LT => astLT
  | .LE => astLE
  | .GT => astGT
  | .GE => astGE
  | .Plus => "plus"
  | .Minus => "minus"
  | .BitNeg => astBitNeg
  | .Not => astUnaryNot

/-- The arity error message `errors.Errorf("Operand should contain %d
column(s)", n)`. -/
def operandColumnsMsg (n : Nat) : String :=
  "Operand should contain " ++ toString n ++ " column(s)"

/-! ## Row-arity utilities (source lines 63-99) -/

/-- `getRowLen` (source lines 63-71): the tuple arity of an expression —
the argument count of a row-constructor function, the field count of a
tuple-valued constant, and 1 otherwise. -/
def getRowLen (e : Expression) : Nat :=
  match e with
  | .scalarFunc name args _ => if name = astRowFunc then args.length else 1
  | .constant (.row ds) _ => ds.length
  | _ => 1

/-- `getRowArg` (source lines 73-80): the `idx`-th component of a
row-valued expression.  In Go an out-of-domain access panics; the
embedding returns a default value there, which is unreachable from the
guarded call sites. -/
def getRowArg (e : Expression) (idx : Nat) : Expression :=
  match e with
  | .scalarFunc _ args _ => args.getD idx default
  | .constant (.row ds) tp => .constant (ds.getD idx .null) tp
  | _ => default

/-- Modelled from the spec: `expression.NewFunction` (an external
collaborator, §6 of the spec) builds a `ScalarFunction` node from a
resolved function name, return type and argument list; it checks only
the function name and argument count, which always succeed for the names
and shapes this pass uses, so it is modelled as total. -/
def NewFunction (funcName : String) (retType : FieldType) (args : List Expression) :
    Except String Expression :=
  .ok (.scalarFunc funcName args retType)

/-- Modelled from the spec: `expression.ComposeCNFCondition` conjoins a
list of scalar conditions with AND (§4.1: "conjoins all resulting scalar
comparisons with AND"); an empty list yields a Go `nil`, modelled as a
true constant. -/
def ComposeCNFCondition : List Expression → Expression
  | [] => .constant (.int 1) .ftiny
  | [c] => c
  | c :: cs => .scalarFunc astAndAnd [c, ComposeCNFCondition cs] .ftiny

/-- Component loop of `constructBinaryOpFunction`: builds the
`idx`-indexed recursive comparisons, propagating the first error. -/
def cbofList (f : Expression → Expression → String → Except String Expression)
    (l r : Expression) (op : String) : List Nat → Except String (List Expression)
  | [] => .ok []
  | i :: is =>
    match f (getRowArg l i) (getRowArg r i) op with
    | .error e => .error e
    | .ok x =>
      match cbofList f l r op is with
      | .error e => .error e
      | .ok xs => .ok (x :: xs)

/-- Fuelled body of `constructBinaryOpFunction` (source lines 82-99).
The fuel only bounds the row-nesting depth of the left operand so that
the recursion is structural; `constructBinaryOpFunction` supplies
`sizeOf l`, which `cbofGo_congr` shows is always enough. -/
def cbofGo : Nat → Expression → Expression → String → Except String Expression
  | 0, _, _, _ => .error "row nesting exceeds fuel"
  | fuel + 1, l, r, op =>
    if getRowLen l = 1 ∧ getRowLen r = 1 then
      NewFunction op .ftiny [l, r]
    else if getRowLen r ≠ getRowLen l then
      .error (operandColumnsMsg (getRowLen l))
    else
      (cbofList (cbofGo fuel) l r op (List.range (getRowLen l))).map ComposeCNFCondition

/-- `constructBinaryOpFunction` (source lines 82-99): converts
`(a0,a1,a2) op (b0,b1,b2)` to `(a0 op b0) and (a1 op b1) and (a2 op b2)`,
failing on an arity mismatch. -/
def constructBinaryOpFunction (l r : Expression) (op : String) : Except String Expression :=
  cbofGo (exprDepth l) l r op

/-! ## Fuel lemmas for `constructBinaryOpFunction` -/

theorem one_le_exprDepth (e : Expression) : 1 ≤ exprDepth e := by
  cases e <;> simp [exprDepth]

theorem exprDepth_le_listDepth (e : Expression) (es : List Expression) (h : e ∈ es) :
    exprDepth e ≤ exprListDepth es := by
  induction es with
  | nil => cases h
  | cons a as ihs =>
    simp only [exprListDepth]
    rcases List.mem_cons.mp h with h | h
    · subst h; exact le_max_left _ _
    · exact le_trans (ihs h) (le_max_right _ _)

theorem datumDepth_le_listDepth (d : Datum) (ds : List Datum) (h : d ∈ ds) :
    datumDepth d ≤ datumListDepth ds := by
  induction ds with
  | nil => cases h
  | cons a as ihs =>
    simp only [datumListDepth]
    rcases List.mem_cons.mp h with h | h
    · subst h; exact le_max_left _ _
    · exact le_trans (ihs h) (le_max_right _ _)

/-- A component of a genuinely row-valued expression has strictly smaller
row-nesting depth. -/
theorem getRowArg_depth_lt (e : Expression) (i : Nat)
    (h1 : getRowLen e ≠ 1) (hi : i < getRowLen e) :
    exprDepth (getRowArg e i) < exprDepth e := by
  cases e with
  | column c => simp [getRowLen] at h1
  | correlatedColumn c => simp [getRowLen] at h1
  | constant d tp =>
    cases d with
    | row ds =>
      simp only [getRowLen] at hi
      simp only [getRowArg, exprDepth, datumDepth]
      have hmem : ds.getD i .null ∈ ds := by
        rw [List.getD_eq_getElem ds .null hi]
        exact List.getElem_mem hi
      have := datumDepth_le_listDepth _ _ hmem
      omega
    | null => simp [getRowLen] at h1
    | int n => simp [getRowLen] at h1
    | str s => simp [getRowLen] at h1
  | scalarFunc name args tp =>
    by_cases hname : name = astRowFunc
    · simp only [getRowLen, if_pos hname] at hi
      simp only [getRowArg, exprDepth]
      have hmem : args.getD i default ∈ args := by
        rw [List.getD_eq_getElem args default hi]
        exact List.getElem_mem hi
      have := exprDepth_le_listDepth _ _ hmem
      omega
    · simp [getRowLen, hname] at h1

/-- Any fuel at least the depth of the left operand computes the same
result: the fuel in `constructBinaryOpFunction` is an embedding artifact
only. -/
theorem cbofGo_congr : ∀ (f g : Nat) (l r : Expression) (op : String),
    exprDepth l ≤ f → exprDepth l ≤ g → cbofGo f l r op = cbofGo g l r op := by
  intro f
  induction f using Nat.strong_induction_on with
  | _ f ih =>
    intro g l r op hf hg
    have hl1 : 1 ≤ exprDepth l := one_le_exprDepth l
    cases f with
    | zero => omega
    | succ f' =>
      cases g with
      | zero => omega
      | succ g' =>
        simp only [cbofGo]
        by_cases h1 : getRowLen l = 1 ∧ getRowLen r = 1
        · simp [h1]
        · simp only [if_neg h1]
          by_cases h2 : getRowLen r ≠ getRowLen l
          · simp [h2]
          · simp only [if_neg h2]
            rw [not_ne_iff] at h2
            have hln1 : getRowLen l ≠ 1 := by
              intro hc
              exact h1 ⟨hc, by rw [h2, hc]⟩
            have key : ∀ is : List Nat, (∀ i ∈ is, i < getRowLen l) →
                cbofList (cbofGo f') l r op is = cbofList (cbofGo g') l r op is := by
              intro is
              induction is with
              | nil => intro _; rfl
              | cons i is ihl =>
                intro hmem
                have hi : i < getRowLen l := hmem i (List.mem_cons_self i is)
                have hd := getRowArg_depth_lt l i hln1 hi
                have heq : cbofGo f' (getRowArg l i) (getRowArg r i) op =
                    cbofGo g' (getRowArg l i) (getRowArg r i) op :=
                  ih f' (Nat.lt_succ_self f') g' (getRowArg l i) (getRowArg r i) op
                    (by omega) (by omega)
                simp only [cbofList]
                rw [heq, ihl (fun j hj => hmem j (List.mem_cons_of_mem i hj))]
            rw [key _ (fun i hi => List.mem_range.mp hi)]

/-- Scalar-on-both-sides equation of `constructBinaryOpFunction`. -/
theorem constructBinaryOpFunction_scalar (l r : Expression) (op : String)
    (hl : getRowLen l = 1) (hr : getRowLen r = 1) :
    constructBinaryOpFunction l r op = .ok (.scalarFunc op [l, r] .ftiny) := by
  unfold constructBinaryOpFunction
  have h1 := one_le_exprDepth l
  obtain ⟨k, hk⟩ : ∃ k, exprDepth l = k + 1 := ⟨exprDepth l - 1, by omega⟩
  rw [hk]
  simp [cbofGo, hl, hr, NewFunction]

/-- Arity-mismatch equation of `constructBinaryOpFunction`. -/
theorem constructBinaryOpFunction_mismatch (l r : Expression) (op : String)
    (hne : getRowLen r ≠ getRowLen l) :
    constructBinaryOpFunction l r op = .error (operandColumnsMsg (getRowLen l)) := by
  unfold constructBinaryOpFunction
  have h1 := one_le_exprDepth l
  obtain ⟨k, hk⟩ : ∃ k, exprDepth l = k + 1 := ⟨exprDepth l - 1, by omega⟩
  rw [hk]
  have hno : ¬(getRowLen l = 1 ∧ getRowLen r = 1) := by
    rintro ⟨ha, hb⟩; exact hne (by omega)
  simp [cbofGo, hno, hne]

/-- Row-decomposition equation of `constructBinaryOpFunction`: on equal
non-unit arities the result is the conjunction of the component-wise
recursive comparisons, with the first component error propagated. -/
theorem constructBinaryOpFunction_row (l r : Expression) (op : String)
    (heq : getRowLen r = getRowLen l) (hne : getRowLen l ≠ 1) :
    constructBinaryOpFunction l r op =
      ((List.range (getRowLen l)).mapM
        (fun i => constructBinaryOpFunction (getRowArg l i) (getRowArg r i) op)).map
        ComposeCNFCondition := by
  unfold constructBinaryOpFunction
  have h1 := one_le_exprDepth l
  obtain ⟨k, hk⟩ : ∃ k, exprDepth l = k + 1 := ⟨exprDepth l - 1, by omega⟩
  rw [hk]
  simp only [cbofGo]
  have hno : ¬(getRowLen l = 1 ∧ getRowLen r = 1) := by
    rintro ⟨ha, _⟩; exact hne ha
  rw [if_neg hno, if_neg (by omega : ¬getRowLen r ≠ getRowLen l)]
  congr 1
  have key : ∀ is : List Nat, (∀ i ∈ is, i < getRowLen l) →
      cbofList (cbofGo k) l r op is =
        is.mapM (fun i => constructBinaryOpFunction (getRowArg l i) (getRowArg r i) op) := by
    intro is
    induction is with
    | nil => intro _; rfl
    | cons i is ihl =>
      intro hmem
      rw [List.mapM_cons]
      have hi := hmem i (List.mem_cons_self i is)
      have hdep := getRowArg_depth_lt l i hne hi
      have harg : cbofGo k (getRowArg l i) (getRowArg r i) op =
          constructBinaryOpFunction (getRowArg l i) (getRowArg r i) op := by
        unfold constructBinaryOpFunction
        exact cbofGo_congr k (exprDepth (getRowArg l i)) _ _ op (by omega) (le_refl _)
      simp only [cbofList]
      rw [harg, ihl (fun j hj => hmem j (List.mem_cons_of_mem i hj))]
      cases hx : constructBinaryOpFunction (getRowArg l i) (getRowArg r i) op with
      | error e => rfl
      | ok x =>
        cases hy : is.mapM
            (fun i => constructBinaryOpFunction (getRowArg l i) (getRowArg r i) op) with
        | error e => rfl
        | ok xs => rfl
  rw [key _ (fun i hi => List.mem_range.mp hi)]
  rfl

/-! ## Correlated-column analysis and CNF splitting -/

/-- Fuelled body of `exprCorrelated`; the fuel bounds the expression
depth so the recursion through the argument list is structural. -/
def exprCorrelatedGo : Nat → Expression → Bool
  | 0, _ => false
  | fuel + 1, e =>
    match e with
    | .correlatedColumn _ => true
    | .scalarFunc _ args _ => args.any (exprCorrelatedGo fuel)
    | _ => false

/-- Modelled from the spec: an expression is correlated when it
references a column of an enclosing scope (glossary: "Correlated
plan/expression"), i.e. contains a `correlatedColumn`. -/
def exprCorrelated (e : Expression) : Bool :=
  exprCorrelatedGo (exprDepth e) e

/-- Fuelled body of `SplitCNFItems`. -/
def splitCNFGo : Nat → Expression → List (Option Expression)
  | 0, e => [some e]
  | fuel + 1, e =>
    match e with
    | .scalarFunc name [a, b] tp =>
      if name = astAndAnd then splitCNFGo fuel a ++ splitCNFGo fuel b
      else [some (.scalarFunc name [a, b] tp)]
    | _ => [some e]

/-- Modelled from the spec: `expression.SplitCNFItems` splits an AND
tree into its conjuncts; a Go `nil` condition yields the single-element
slice holding `nil` (`[]Expression{onExpr}`). -/
def SplitCNFItems : Option Expression → List (Option Expression)
  | none => [none]
  | some e => splitCNFGo (exprDepth e) e

/-! ## Logical plans and the plan-construction collaborators -/

/-- `plan.ApplyConditionChecker`: the per-inner-row check carried by an
apply operator; `condition` is a Go pointer and may be `nil`. -/
structure ApplyConditionChecker where
  condition : Option Expression
  all : Bool

/-- Modelled from the spec: logical plan nodes as far as this pass
observes or produces them (§3 "Logical Plan Node", §6 collaborators).
`source` stands for any externally built plan (e.g. the compiled
subquery body) with its schema and correlation status; `selection` is
the `*plan.Selection` filter node the EXISTS decorrelation inspects;
the remaining constructors are the shapes `buildExists`,
`buildMaxOneRow`, `buildSemiJoin` and `buildApply` produce. -/
inductive LogicalPlan where
  | source (schema : List Column) (correlated : Bool)
  | selection (conditions : List Expression) (child : LogicalPlan)
  | existsPlan (child : LogicalPlan)
  | maxOneRow (child : LogicalPlan)
  | semiJoin (outer inner : LogicalPlan) (conditions : List (Option Expression))
      (asScalar isAnti : Bool)
  | applyPlan (outer inner : LogicalPlan) (outerSchema : Schema)
      (checker : Option ApplyConditionChecker)

/-- The synthesized trailing boolean match column added by `buildApply`
(with a checker) and by `buildSemiJoin` (when `asScalar`). -/
def auxCol : Column := ⟨"", "", "aux_col", .ftiny⟩

/-- The single boolean output column of an existence-test operator. -/
def existsCol : Column := ⟨"", "", "exists_row", .ftiny⟩

/-- Modelled from the spec: `GetSchema` of the plan shapes (§6:
`buildApply` yields outer's columns, inner's columns, plus a trailing
match column when a checker is present; `buildSemiJoin` yields outer's
columns plus a trailing boolean column when `resultIsScalar`;
`buildExists` yields a single boolean column). -/
def LogicalPlan.GetSchema : LogicalPlan → List Column
  | .source s _ => s
  | .selection _ child => child.GetSchema
  | .existsPlan _ => [existsCol]
  | .maxOneRow child => child.GetSchema
  | .semiJoin outer _ _ asScalar _ =>
    if asScalar then outer.GetSchema ++ [auxCol] else outer.GetSchema
  | .applyPlan outer inner _ checker =>
    outer.GetSchema ++ inner.GetSchema ++ (if checker.isSome then [auxCol] else [])

/-- Modelled from the spec: a plan is correlated when it references
columns from an enclosing scope (§3 "Logical Plan Node"). -/
def LogicalPlan.IsCorrelated : LogicalPlan → Bool
  | .source _ c => c
  | .selection conds child => conds.any exprCorrelated || child.IsCorrelated
  | .existsPlan child => child.IsCorrelated
  | .maxOneRow child => child.IsCorrelated
  | .semiJoin outer inner conds _ _ =>
    outer.IsCorrelated || inner.IsCorrelated ||
      conds.any (fun oc => (oc.map exprCorrelated).getD false)
  | .applyPlan outer inner _ _ => outer.IsCorrelated || inner.IsCorrelated

/-- `GetChildByIndex` of the plan shapes. -/
def LogicalPlan.GetChildByIndex : LogicalPlan → Nat → Option LogicalPlan
  | .source _ _, _ => none
  | .selection _ child, 0 => some child
  | .existsPlan child, 0 => some child
  | .maxOneRow child, 0 => some child
  | .semiJoin outer _ _ _ _, 0 => some outer
  | .semiJoin _ inner _ _ _, 1 => some inner
  | .applyPlan outer _ _ _, 0 => some outer
  | .applyPlan _ inner _ _, 1 => some inner
  | _, _ => none

/-- Modelled from the spec: `buildExists` wraps a plan with an
existence-test operator (§6). -/
def buildExists (p : LogicalPlan) : LogicalPlan := .existsPlan p

/-- Modelled from the spec: `buildMaxOneRow` wraps a plan with an
at-most-one-row constraint (§6). -/
def buildMaxOneRow (p : LogicalPlan) : LogicalPlan := .maxOneRow p

/-- Modelled from the spec: `buildSemiJoin` produces a semi-join or
anti-semi-join over the given conditions (§6). -/
def buildSemiJoin (outer inner : LogicalPlan) (conditions : List (Option Expression))
    (asScalar isAnti : Bool) : LogicalPlan :=
  .semiJoin outer inner conditions asScalar isAnti

/-- Modelled from the spec: `buildApply` produces an apply-join with an
optional condition-checker (§6). -/
def buildApply (outer inner : LogicalPlan) (outerSchema : Schema)
    (checker : Option ApplyConditionChecker) : LogicalPlan :=
  .applyPlan outer inner outerSchema checker

/-! ## The expression rewriter state -/

/-- The fields of `expressionRewriter` that the modelled operations
read and write.  `ctxStack` is held top-first (see the header comment);
`err` is the first-error slot; `asScalar` is the scalar-context flag. -/
structure RewriterState where
  ctxStack : List Expression
  p : LogicalPlan
  err : Option String
  asScalar : Bool

/-! ## The top-level rewrite checks (source lines 26-49) -/

/-- The post-traversal part of `rewrite`: the error short-circuit and
the final stack-shape checks, given the scalar-context request
`asScalar` and the rewriter state after `expr.Accept(er)`. -/
def rewriteResult (asScalar : Bool) (er : RewriterState) :
    Except String (Option Expression × LogicalPlan) :=
  match er.err with
  | some e => .error e
  | none =>
    if ¬asScalar ∧ er.ctxStack.length = 0 then .ok (none, er.p)
    else if er.ctxStack.length ≠ 1 then
      .error ("context len " ++ toString er.ctxStack.length ++ " is invalid")
    else if getRowLen (er.ctxStack.headD default) ≠ 1 then
      .error (operandColumnsMsg 1)
    else .ok (some (er.ctxStack.headD default), er.p)

/-! ## Subquery construction (source lines 101-111) -/

/-- `buildSubquery`: pushes a snapshot of the current schema on the
builder's outer-schema stack, runs the nested plan construction
(`buildResultSetNode`, an external collaborator modelled as a state
transformer on the stack), pops, and only then checks the builder
error.  Returns the resulting outer-schema stack together with the
plan and pushed snapshot, or the nested build's error. -/
def buildSubquery (outerSchemas : List Schema) (curSchema : Schema)
    (buildResultSetNode : List Schema → List Schema × Except String LogicalPlan) :
    List Schema × Except String (LogicalPlan × Schema) :=
  let outerSchema := curSchema
  let pushed := outerSchemas ++ [outerSchema]
  let result := buildResultSetNode pushed
  let restored := result.1.take (result.1.length - 1)
  match result.2 with
  | .error e => (restored, .error e)
  | .ok np => (restored, .ok (np, outerSchema))

/-! ## Quantified comparison subqueries (source lines 149-210) -/

/-- The body of `handleCompareSubquery` from the point where the left
operand has been rewritten (it sits on top of `er.ctxStack`) and the
subquery plan `np` has been built by `buildSubquery`. -/
def handleCompareSubqueryCore (er : RewriterState) (vOp : Opcode) (vAll : Bool)
    (np : LogicalPlan) (outerSchema : Schema) : RewriterState :=
  let lexpr := er.ctxStack.headD default
  -- source comment: "Only (a,b,c) = all (...) and (a,b,c) != any () can use row"
  let canMultiCol := (!vAll && decide (vOp = .EQ)) || (vAll && decide (vOp = .NE))
  if !canMultiCol && (decide (getRowLen lexpr ≠ 1) || decide (np.GetSchema.length ≠ 1)) then
    { er with err := some (operandColumnsMsg 1) }
  else if getRowLen lexpr ≠ np.GetSchema.length then
    { er with err := some (operandColumnsMsg (getRowLen lexpr)) }
  else
    let rexpr : Expression :=
      if np.GetSchema.length = 1 then .column (np.GetSchema.headD default)
      else .scalarFunc astRowFunc (np.GetSchema.map Expression.column) .frow
    let checkRes : Except String Expression :=
      match vOp with
      -- source comment: "Only EQ, NE and NullEQ can be composed with and."
      | .EQ | .NE | .NullEQ => constructBinaryOpFunction lexpr rexpr (opcodeOps vOp)
      | _ => NewFunction (opcodeOps vOp) .ftiny [lexpr, rexpr]
    match checkRes with
    | .error e => { er with err := some e }
    | .ok checkCondition =>
      let p2 := buildApply er.p np outerSchema (some ⟨some checkCondition, vAll⟩)
      { er with
        p := p2
        ctxStack := .column (p2.GetSchema.getLastD default) :: er.ctxStack.tail }

/-! ## EXISTS subqueries (source lines 212-259) -/

/-- The body of `handleExistSubquery` from the point where the subquery
plan `np0` has been built by `buildSubquery`.  `evalSubquery` models the
uncorrelated eager-evaluation pipeline (predicate pushdown, pruning,
physical conversion and `EvalSubquery`, all external collaborators). -/
def handleExistSubqueryCore (er : RewriterState) (np0 : LogicalPlan)
    (outerSchema : Schema)
    (evalSubquery : LogicalPlan → Except String (List Datum)) : RewriterState :=
  let np := buildExists np0
  if np.IsCorrelated then
    match np.GetChildByIndex 0 with
    | some (.selection conds child) =>
      if !child.IsCorrelated then
        let p2 := buildSemiJoin er.p child (conds.map some) er.asScalar false
        if !er.asScalar then { er with p := p2 }
        else
          { er with
            p := p2
            ctxStack := .column (p2.GetSchema.getLastD default) :: er.ctxStack }
      else
        -- source comment: "Can't be built as semi-join"
        let p2 := buildApply er.p np outerSchema none
        { er with
          p := p2
          ctxStack := .column (p2.GetSchema.getLastD default) :: er.ctxStack }
    | _ =>
      let p2 := buildApply er.p np outerSchema none
      { er with
        p := p2
        ctxStack := .column (p2.GetSchema.getLastD default) :: er.ctxStack }
  else
    match evalSubquery np with
    | .error e => { er with err := some e }
    | .ok d =>
      { er with ctxStack :=
          .constant (d.headD .null) (np.GetSchema.headD default).retType :: er.ctxStack }

/-! ## IN subqueries (source lines 261-321) -/

/-- The body of `handleInSubquery` from the point where the left operand
has been rewritten (it sits on top of `er.ctxStack`, with the scalar
flag saved in `asScalar`) and the subquery plan `np` has been built.
Note how the Go call site reads `checkCondition` in the uncorrelated
branch before checking `err`. -/
def handleInSubqueryCore (er : RewriterState) (asScalar : Bool) (vNot : Bool)
    (vType : FieldType) (np : LogicalPlan) (outerSchema : Schema) : RewriterState :=
  let lexpr := er.ctxStack.headD default
  if getRowLen lexpr ≠ np.GetSchema.length then
    { er with err := some (operandColumnsMsg (getRowLen lexpr)) }
  else
    let rexpr : Expression :=
      if np.GetSchema.length = 1 then .column (np.GetSchema.headD default)
      else .scalarFunc astRowFunc (np.GetSchema.map Expression.column) .fnil
    -- Go: `checkCondition, err := constructBinaryOpFunction(lexpr, rexpr, ast.EQ)`
    let res := constructBinaryOpFunction lexpr rexpr astEQ
    let checkCondition : Option Expression := res.toOption
    let errv : Option String := match res with | .error e => some e | .ok _ => none
    if !np.IsCorrelated then
      let p2 := buildSemiJoin er.p np (SplitCNFItems checkCondition) asScalar vNot
      if asScalar then
        { er with
          p := p2
          ctxStack := .column (p2.GetSchema.getLastD default) :: er.ctxStack.tail }
      else
        { er with p := p2, ctxStack := er.ctxStack.tail }
    else
      let checkCondition2 :=
        if vNot then some (Expression.scalarFunc astUnaryNot checkCondition.toList vType)
        else checkCondition
      match errv with
      | some e => { er with err := some e }
      | none =>
        let p2 := buildApply er.p np outerSchema (some ⟨checkCondition2, vNot⟩)
        { er with
          p := p2
          ctxStack := .column (p2.GetSchema.getLastD default) :: er.ctxStack.tail }

/-! ## Unary operations (source lines 521-542) -/

/-- `unaryOpToExpression`.  The arity check assigns `er.err` without
returning; for `-`, `~` and `!` the subsequent Go double-assignment
`er.ctxStack[stkLen-1], er.err = NewFunction(...)` then overwrites
`er.err` with `NewFunction`'s (nil) error. -/
def unaryOpToExpression (er : RewriterState) (vOp : Opcode) (vType : FieldType) :
    RewriterState :=
  let er1 :=
    if getRowLen (er.ctxStack.headD default) ≠ 1 then
      { er with err := some (operandColumnsMsg 1) }
    else er
  match vOp with
  | .Plus =>
    -- source comment: "expression (+ a) is equal to a"
    er1
  | .Minus =>
    { er1 with
      ctxStack := .scalarFunc astUnaryMinus [er1.ctxStack.headD default] vType ::
        er1.ctxStack.tail
      err := none }
  | .BitNeg =>
    { er1 with
      ctxStack := .scalarFunc astBitNeg [er1.ctxStack.headD default] vType ::
        er1.ctxStack.tail
      err := none }
  | .Not =>
    { er1 with
      ctxStack := .scalarFunc astUnaryNot [er1.ctxStack.headD default] vType ::
        er1.ctxStack.tail
      err := none }
  | _ => { er1 with err := some "Unknown Unary Op" }

/-! ## BETWEEN (source lines 700-728) -/

/-- `betweenToExpression`: stack operands are `[stkLen-3] = value`,
`[stkLen-2] = low`, `[stkLen-1] = high`; the value is cloned for its
second occurrence. -/
def betweenToExpression (er : RewriterState) (vNot : Bool) (vType : FieldType) :
    RewriterState :=
  let value := er.ctxStack.getD 2 default
  let low := er.ctxStack.getD 1 default
  let high := er.ctxStack.getD 0 default
  let lrop : Expression × Expression × String :=
    if vNot then
      (.scalarFunc astLT [value, low] vType,
        .scalarFunc astGT [value.Clone, high] vType, astOrOr)
    else
      (.scalarFunc astGE [value, low] vType,
        .scalarFunc astLE [value.Clone, high] vType, astAndAnd)
  let function : Expression := .scalarFunc lrop.2.2 [lrop.1, lrop.2.1] vType
  { er with ctxStack := function :: er.ctxStack.drop 3, err := none }

/-! ## Column resolution (source lines 738-762) -/

/-- Whether a schema column matches an AST column name (empty qualifier
strings are wildcards). -/
def colMatch (cn : ColumnName) (c : Column) : Bool :=
  c.colName == cn.colName &&
    (cn.tblName == "" || c.tblName == cn.tblName) &&
    (cn.dbName == "" || c.dbName == cn.dbName)

/-- Modelled from the spec: `Schema.FindColumn` resolves a qualified
name to exactly one column or fails (§3 "Schema": "Lookups by qualified
name must resolve to exactly one column or fail"); returned Go-style as
`(column, error)`. -/
def Schema.FindColumn (s : Schema) (cn : ColumnName) : Option Column × Option String :=
  match s.filter (colMatch cn) with
  | [] => (none, none)
  | [c] => (some c, none)
  | _ => (none, some ("Column " ++ cn.colName ++ " is ambiguous"))

/-- The `errors.Errorf("Unknown column %s %s %s.", ...)` message. -/
def unknownColumnMsg (v : ColumnName) : String :=
  "Unknown column " ++ v.dbName ++ " " ++ v.tblName ++ " " ++ v.colName ++ "."

/-- The outer-scope loop of `toColumn`: Go iterates the outer-schema
stack from index `len-1` down to `0`, so the argument list here is the
stack reversed (innermost scope first).  Inside the loop the found
column is checked before the error, as in the source. -/
def toColumnLoop (er : RewriterState) (v : ColumnName) :
    List Schema → RewriterState
  | [] => { er with err := some (unknownColumnMsg v) }
  | s :: rest =>
    let res := Schema.FindColumn s v
    match res.1 with
    | some c => { er with ctxStack := .correlatedColumn c :: er.ctxStack }
    | none =>
      match res.2 with
      | some e => { er with err := some e }
      | none => toColumnLoop er v rest

/-- `toColumn`: resolve against the current schema first (error checked
before the column there), then against the outer-schema stack from
innermost to outermost, wrapping an outer match as a correlated column;
unknown-column error if nothing resolves. -/
def toColumn (er : RewriterState) (schema : Schema) (outerSchemas : List Schema)
    (v : ColumnName) : RewriterState :=
  let res := Schema.FindColumn schema v
  match res.2 with
  | some e => { er with err := some e }
  | none =>
    match res.1 with
    | some c => { er with ctxStack := .column c :: er.ctxStack }
    | none => toColumnLoop er v outerSchemas.reverse

/-! ## Variable references (source lines 444-476) -/

/-- `datumToConstant` (source lines 444-446). -/
def datumToConstant (d : Datum) (tp : FieldType) : Expression :=
  .constant d tp

/-- ASCII lowercase of a character. -/
def charToLower (c : Char) : Char :=
  if 65 ≤ c.toNat ∧ c.toNat ≤ 90 then Char.ofNat (c.toNat + 32) else c

/-- `strings.ToLower`, written out character-wise so that it evaluates
inside the kernel (variable names here are ASCII). -/
def strToLower (s : String) : String := ⟨s.data.map charToLower⟩

/-- The `!v.IsSystem` branch of `rewriteVariable` (source lines
453-476); the system-variable branch (lines 477-518) is disjoint code
that no claim touches.  `users` is the key set of the session's
user-variable map (`sessionVars.Users`), `vName` the raw AST name, and
`vHasValue` whether the reference is an assignment, in which case the
assigned value sits on top of the stack. -/
def rewriteVariableNonSystem (er : RewriterState) (users : List String)
    (vName : String) (vHasValue : Bool) : RewriterState :=
  let name := strToLower vName
  if vHasValue then
    let top := er.ctxStack.headD default
    { er with ctxStack :=
        .scalarFunc astSetVar [datumToConstant (.str name) .fstring, top] top.GetType ::
          er.ctxStack.tail }
  else if name ∈ users then
    { er with ctxStack :=
        .scalarFunc astGetVar [datumToConstant (.str name) .fstring] .fstring ::
          er.ctxStack }
  else
    -- source comment: "select null user vars is permitted."
    { er with ctxStack := .constant .null .fnull :: er.ctxStack }

/-! ## Concrete fixtures used by witnesses and counterexamples -/

def colA : Column := ⟨"", "t", "a", .flong⟩
def colB : Column := ⟨"", "t", "b", .flong⟩
def colC : Column := ⟨"", "s", "c", .flong⟩
def colD : Column := ⟨"", "s", "d", .flong⟩
def colE : Column := ⟨"", "s", "e", .flong⟩

/-! ## Claim C2: `constructBinaryOpFunction` -/

/-- A list whose elements all map to `.ok` maps to `.ok` of the list of
results. -/
theorem mapM_ok_of_forall {α β : Type} (f : α → Except String β) :
    ∀ l : List α, (∀ a ∈ l, ∃ b, f a = .ok b) → ∃ bs, l.mapM f = .ok bs := by
  intro l
  induction l with
  | nil => intro _; exact ⟨[], rfl⟩
  | cons a as ihs =>
    intro h
    obtain ⟨b, hb⟩ := h a (List.mem_cons_self a as)
    obtain ⟨bs, hbs⟩ := ihs (fun x hx => h x (List.mem_cons_of_mem a hx))
    refine ⟨b :: bs, ?_⟩
    rw [List.mapM_cons, hb, hbs]
    rfl

/-- C2: `decomposeComparison` (`constructBinaryOpFunction`) builds a
single two-argument comparison node when both operands have row-length
1; on equal row-lengths N > 1 it returns the AND-conjunction of the N
component-wise recursive comparisons at aligned positions; and on
unequal row-lengths it always fails with the arity error naming
`rowLength(l)`, never truncating. -/
theorem claim2_decomposeComparison (l r : Expression) (op : String) :
    ((getRowLen l = 1 ∧ getRowLen r = 1) →
      constructBinaryOpFunction l r op = .ok (.scalarFunc op [l, r] .ftiny)) ∧
    ((getRowLen l = getRowLen r ∧ 1 < getRowLen l) →
      constructBinaryOpFunction l r op =
        ((List.range (getRowLen l)).mapM
          (fun i => constructBinaryOpFunction (getRowArg l i) (getRowArg r i) op)).map
          ComposeCNFCondition) ∧
    (getRowLen l ≠ getRowLen r →
      constructBinaryOpFunction l r op = .error (operandColumnsMsg (getRowLen l))) :=
  ⟨fun h => constructBinaryOpFunction_scalar l r op h.1 h.2,
    fun h => constructBinaryOpFunction_row l r op h.1.symm (by omega),
    fun h => constructBinaryOpFunction_mismatch l r op (Ne.symm h)⟩

def c2l : Expression := .scalarFunc astRowFunc [.column colA, .column colB] .fnil
def c2r : Expression := .scalarFunc astRowFunc [.column colC, .column colD] .fnil

/-- Witness for C2 at the concrete row pair `(a,b) eq (c,d)`. -/
theorem claim2_decomposeComparison_witness :
    (getRowLen c2l = getRowLen c2r ∧ 1 < getRowLen c2l) ∧
    constructBinaryOpFunction c2l c2r astEQ =
      ((List.range (getRowLen c2l)).mapM
        (fun i => constructBinaryOpFunction (getRowArg c2l i) (getRowArg c2r i) astEQ)).map
        ComposeCNFCondition :=
  ⟨⟨rfl, by decide⟩, (claim2_decomposeComparison c2l c2r astEQ).2.1 ⟨rfl, by decide⟩⟩

/-! ## Claim C1: multi-column quantified comparisons -/

/-- For a left operand whose components are scalar and a right side
built from the subquery schema with matching arity, the equality
decomposition succeeds. -/
theorem cbof_ok_of_components (lexpr : Expression) (schema : List Column) (op : String)
    (harity : getRowLen lexpr = schema.length)
    (hcomp : ∀ i, i < getRowLen lexpr → getRowLen (getRowArg lexpr i) = 1) :
    ∃ c, constructBinaryOpFunction lexpr
      (if schema.length = 1 then Expression.column (schema.headD default)
        else .scalarFunc astRowFunc (schema.map Expression.column) .frow) op = .ok c := by
  by_cases h1 : schema.length = 1
  · rw [if_pos h1]
    exact ⟨_, constructBinaryOpFunction_scalar _ _ _ (by omega) rfl⟩
  · rw [if_neg h1]
    have hr : getRowLen (.scalarFunc astRowFunc (schema.map Expression.column) .frow) =
        schema.length := by
      simp [getRowLen]
    have hde : getRowLen lexpr ≠ 1 := by omega
    rw [constructBinaryOpFunction_row _ _ _ (by rw [hr, harity]) hde]
    have hcomps : ∀ i ∈ List.range (getRowLen lexpr),
        ∃ b, constructBinaryOpFunction (getRowArg lexpr i)
          (getRowArg (.scalarFunc astRowFunc (schema.map Expression.column) .frow) i) op =
          .ok b := by
      intro i hi
      have hi' : i < (schema.map Expression.column).length := by
        rw [List.length_map]
        have := List.mem_range.mp hi
        omega
      have hargr : getRowLen
          (getRowArg (.scalarFunc astRowFunc (schema.map Expression.column) .frow) i) = 1 := by
        simp only [getRowArg, List.getD_eq_getElem _ _ hi', List.getElem_map]
        rfl
      exact ⟨_, constructBinaryOpFunction_scalar _ _ _
        (hcomp i (List.mem_range.mp hi)) hargr⟩
    obtain ⟨bs, hbs⟩ := mapM_ok_of_forall _ _ hcomps
    exact ⟨ComposeCNFCondition bs, by rw [hbs]; rfl⟩

def c1state : RewriterState :=
  ⟨[.scalarFunc astRowFunc [.column colA, .column colB] .fnil],
    .source [colA, colB] false, none, true⟩

def c1np : LogicalPlan := .source [colC, colD] false

/-- C1 counterexample: with a two-column left operand `(a,b)` and a
two-column subquery, `= ALL` and `!= ANY` are rejected with the arity
error while `= ANY` and `!= ALL` are accepted — the opposite of the
claimed combinations. -/
theorem claim1_counterexample :
    (handleCompareSubqueryCore c1state .EQ true c1np []).err = some (operandColumnsMsg 1) ∧
    (handleCompareSubqueryCore c1state .NE false c1np []).err = some (operandColumnsMsg 1) ∧
    (handleCompareSubqueryCore c1state .EQ false c1np []).err = none ∧
    (handleCompareSubqueryCore c1state .NE true c1np []).err = none :=
  ⟨rfl, rfl, rfl, rfl⟩

/-- C1 (amended): a multi-column left operand or multi-column subquery
is accepted only for `= ANY` and `!= ALL`; for every other
operator/quantifier combination, a left operand of row-length ≠ 1 or a
subquery with ≠ 1 output columns fails with the arity error, while the
two permitted combinations with matching arity and scalar components
raise no error. -/
theorem claim1_compare_multicol (er : RewriterState) (vOp : Opcode) (vAll : Bool)
    (np : LogicalPlan) (os : Schema) :
    (¬((vAll = false ∧ vOp = .EQ) ∨ (vAll = true ∧ vOp = .NE)) →
      (getRowLen (er.ctxStack.headD default) ≠ 1 ∨ np.GetSchema.length ≠ 1) →
      (handleCompareSubqueryCore er vOp vAll np os).err = some (operandColumnsMsg 1)) ∧
    (((vAll = false ∧ vOp = .EQ) ∨ (vAll = true ∧ vOp = .NE)) →
      getRowLen (er.ctxStack.headD default) = np.GetSchema.length →
      (∀ i, i < getRowLen (er.ctxStack.headD default) →
        getRowLen (getRowArg (er.ctxStack.headD default) i) = 1) →
      (handleCompareSubqueryCore er vOp vAll np os).err = er.err) := by
  constructor
  · intro hno hmulti
    have hc : ((!vAll && decide (vOp = Opcode.EQ)) || (vAll && decide (vOp = Opcode.NE)))
        = false := by
      cases vAll <;> cases vOp <;> simp_all
    simp only [List.headD_eq_head?] at hmulti
    simp [handleCompareSubqueryCore, hc, hmulti]
  · intro hcan harity hcomp
    rcases hcan with ⟨hA, hO⟩ | ⟨hA, hO⟩ <;> subst hA <;> subst hO
    · obtain ⟨c, hok⟩ :=
        cbof_ok_of_components (er.ctxStack.headD default) np.GetSchema
          (opcodeOps .EQ) harity hcomp
      simp only [List.headD_eq_head?] at harity hok
      simp [handleCompareSubqueryCore, harity, hok]
    · obtain ⟨c, hok⟩ :=
        cbof_ok_of_components (er.ctxStack.headD default) np.GetSchema
          (opcodeOps .NE) harity hcomp
      simp only [List.headD_eq_head?] at harity hok
      simp [handleCompareSubqueryCore, harity, hok]

/-- Witness for the amended C1: `(a,b) < ALL (two-column subquery)` is
rejected with the arity error; `(a,b) = ANY (...)` raises no error. -/
theorem claim1_compare_multicol_witness :
    (handleCompareSubqueryCore c1state .LT true c1np []).err = some (operandColumnsMsg 1) ∧
    (handleCompareSubqueryCore c1state .EQ false c1np []).err = c1state.err :=
  ⟨(claim1_compare_multicol c1state .LT true c1np []).1 (by decide) (Or.inl (by decide)),
    (claim1_compare_multicol c1state .EQ false c1np []).2 (Or.inl ⟨rfl, rfl⟩)
      (by decide) (by decide)⟩

/-! ## Claim C3: final stack shape of a scalar rewrite -/

/-- C3: at the end of a top-level rewrite requested as scalar that
completes without an earlier error, a final stack whose length is not 1
fails with the invalid-stack-length error, a single entry of row-length
≠ 1 fails with the arity error, and a result expression is returned
exactly when the stack holds one entry of row-length 1. -/
theorem claim3_rewrite_scalar_stack (er : RewriterState) (herr : er.err = none) :
    (er.ctxStack.length ≠ 1 →
      rewriteResult true er =
        .error ("context len " ++ toString er.ctxStack.length ++ " is invalid")) ∧
    (∀ e, er.ctxStack = [e] → getRowLen e ≠ 1 →
      rewriteResult true er = .error (operandColumnsMsg 1)) ∧
    (∀ res, rewriteResult true er = .ok res →
      ∃ e, er.ctxStack = [e] ∧ getRowLen e = 1 ∧ res = (some e, er.p)) := by
  refine ⟨?_, ?_, ?_⟩
  · intro hlen
    simp [rewriteResult, herr, hlen]
  · intro e hstk hrl
    simp [rewriteResult, herr, hstk, hrl]
  · intro res hres
    by_cases hlen : er.ctxStack.length = 1
    · obtain ⟨e, hstk⟩ := List.length_eq_one.mp hlen
      by_cases hrl : getRowLen e = 1
      · refine ⟨e, hstk, hrl, ?_⟩
        simp [rewriteResult, herr, hstk, hrl] at hres
        exact hres.symm
      · exfalso
        simp [rewriteResult, herr, hstk, hrl] at hres
    · exfalso
      simp [rewriteResult, herr, hlen] at hres

def c3state : RewriterState :=
  ⟨[.scalarFunc astRowFunc [.column colA, .column colB] .fnil],
    .source [colA, colB] false, none, true⟩

/-- Witness for C3: a bare two-column row constructor requested as a
scalar fails with the arity error. -/
theorem claim3_rewrite_scalar_stack_witness :
    rewriteResult true c3state = .error (operandColumnsMsg 1) :=
  (claim3_rewrite_scalar_stack c3state rfl).2.1 _ rfl (by decide)

/-! ## Claim C4: EXISTS decorrelation into a semi-join -/

/-- C4: a correlated EXISTS subquery whose existence-wrapped plan's
immediate child is a Selection over a non-correlated child is rewritten
into a semi-join between the outer plan and that child on the
Selection's conditions — not an apply operator — while every other
correlated EXISTS falls back to an apply operator. -/
theorem claim4_exists_decorrelation (er : RewriterState) (np0 : LogicalPlan)
    (os : Schema) (ev : LogicalPlan → Except String (List Datum))
    (hcorr : (buildExists np0).IsCorrelated = true) :
    (∀ conds child, np0 = .selection conds child → child.IsCorrelated = false →
      (handleExistSubqueryCore er np0 os ev).p =
        buildSemiJoin er.p child (conds.map some) er.asScalar false) ∧
    ((∀ conds child, np0 = .selection conds child → child.IsCorrelated = true) →
      (handleExistSubqueryCore er np0 os ev).p =
        buildApply er.p (buildExists np0) os none) := by
  simp only [buildExists] at hcorr
  constructor
  · rintro conds child rfl hchild
    cases hsc : er.asScalar <;>
      simp [handleExistSubqueryCore, buildExists, hcorr, LogicalPlan.GetChildByIndex,
        hchild, hsc, buildSemiJoin]
  · intro hother
    cases np0 with
    | selection conds child =>
      have hchild := hother conds child rfl
      simp [handleExistSubqueryCore, buildExists, hcorr, LogicalPlan.GetChildByIndex,
        hchild, buildApply]
    | source s c =>
      simp [handleExistSubqueryCore, buildExists, hcorr, LogicalPlan.GetChildByIndex,
        buildApply]
    | existsPlan c =>
      simp [handleExistSubqueryCore, buildExists, hcorr, LogicalPlan.GetChildByIndex,
        buildApply]
    | maxOneRow c =>
      simp [handleExistSubqueryCore, buildExists, hcorr, LogicalPlan.GetChildByIndex,
        buildApply]
    | semiJoin a b cds s n =>
      simp [handleExistSubqueryCore, buildExists, hcorr, LogicalPlan.GetChildByIndex,
        buildApply]
    | applyPlan a b o ch =>
      simp [handleExistSubqueryCore, buildExists, hcorr, LogicalPlan.GetChildByIndex,
        buildApply]

def c4cond : Expression := .scalarFunc astEQ [.correlatedColumn colA, .column colD] .ftiny

def c4child : LogicalPlan := .source [colD] false

def c4np : LogicalPlan := .selection [c4cond] c4child

def c4er : RewriterState := ⟨[], .source [colA] false, none, false⟩

def c4ev : LogicalPlan → Except String (List Datum) := fun _ => .ok [.null]

/-- Witness for C4: a correlated EXISTS whose body is a single filter
over an uncorrelated base table is rewritten into a semi-join. -/
theorem claim4_exists_decorrelation_witness :
    (handleExistSubqueryCore c4er c4np [] c4ev).p =
      buildSemiJoin c4er.p c4child ([c4cond].map some) c4er.asScalar false :=
  (claim4_exists_decorrelation c4er c4np [] c4ev rfl).1 [c4cond] c4child rfl rfl

/-! ## Claim C5: the dropped equality-construction error (code bug) -/

def c5lexpr : Expression :=
  .scalarFunc astRowFunc
    [.scalarFunc astRowFunc [.column colA, .column colB] .fnil, .column colC] .fnil

def c5er : RewriterState := ⟨[c5lexpr], .source [colA, colB, colC] false, none, true⟩

def c5np : LogicalPlan := .source [colD, colE] false

/-- C5 (code-bug demonstration): for the left operand
`row(row(a,b),c)` against an uncorrelated two-column subquery, the
equality construction fails with "Operand should contain 2 column(s)",
yet `handleInSubquery` checks `err` only after the uncorrelated branch
returns: the rewrite reports no error and builds a semi-join whose
condition list is the single Go-nil item. -/
theorem claim5_error_dropped :
    constructBinaryOpFunction c5lexpr
        (.scalarFunc astRowFunc [.column colD, .column colE] .fnil) astEQ =
      .error (operandColumnsMsg 2) ∧
    (handleInSubqueryCore c5er true false .ftiny c5np []).err = none ∧
    (handleInSubqueryCore c5er true false .ftiny c5np []).p =
      buildSemiJoin c5er.p c5np [none] true false :=
  ⟨rfl, rfl, rfl⟩

/-! ## Claim C6: unary operations on row operands (code bug) -/

def c6row : Expression := .scalarFunc astRowFunc [.column colA, .column colB] .fnil

def c6er : RewriterState := ⟨[c6row], .source [colA, colB] false, none, true⟩

/-- C6 (code-bug demonstration): on the two-column operand `row(a,b)`,
`+x` does fail with the arity error, but for `-x`, `~x` and `!x` the
recorded arity error is overwritten by `NewFunction`'s nil error: the
rewrite reports no error and leaves the unary node over the row operand
on the stack. -/
theorem claim6_unary_arity_overwritten :
    (unaryOpToExpression c6er .Plus .ftiny).err = some (operandColumnsMsg 1) ∧
    (unaryOpToExpression c6er .Minus .ftiny).err = none ∧
    (unaryOpToExpression c6er .Minus .ftiny).ctxStack =
      [.scalarFunc astUnaryMinus [c6row] .ftiny] ∧
    (unaryOpToExpression c6er .BitNeg .ftiny).err = none ∧
    (unaryOpToExpression c6er .Not .ftiny).err = none :=
  ⟨rfl, rfl, rfl, rfl, rfl⟩

/-- For a scalar operand the claimed behaviour does hold: `+x` leaves
the stack unchanged with no node built, and `-x`, `~x`, `!x` replace
the top entry with the corresponding unary function node. -/
theorem claim6_unary_scalar_ok (er : RewriterState) (vType : FieldType)
    (h1 : getRowLen (er.ctxStack.headD default) = 1) :
    unaryOpToExpression er .Plus vType = er ∧
    (unaryOpToExpression er .Minus vType).ctxStack =
      .scalarFunc astUnaryMinus [er.ctxStack.headD default] vType :: er.ctxStack.tail ∧
    (unaryOpToExpression er .BitNeg vType).ctxStack =
      .scalarFunc astBitNeg [er.ctxStack.headD default] vType :: er.ctxStack.tail ∧
    (unaryOpToExpression er .Not vType).ctxStack =
      .scalarFunc astUnaryNot [er.ctxStack.headD default] vType :: er.ctxStack.tail := by
  simp only [List.headD_eq_head?] at h1
  refine ⟨?_, ?_, ?_, ?_⟩ <;> simp [unaryOpToExpression, h1]

/-- Witness for the scalar half of C6. -/
theorem claim6_unary_scalar_ok_witness :
    unaryOpToExpression ⟨[.column colA], .source [colA] false, none, true⟩ .Plus .ftiny =
      ⟨[.column colA], .source [colA] false, none, true⟩ :=
  (claim6_unary_scalar_ok ⟨[.column colA], .source [colA] false, none, true⟩ .ftiny rfl).1

/-! ## Claim C8: column resolution order -/

/-- The outer-scope loop resolves to the first scope (in iteration
order) whose lookup finds a column, wrapping it as a correlated
column. -/
theorem toColumnLoop_first_match (er : RewriterState) (v : ColumnName) :
    ∀ (ss : List Schema) (k : Nat) (c : Column), k < ss.length →
      (∀ j, j < k → Schema.FindColumn (ss.getD j []) v = (none, none)) →
      (Schema.FindColumn (ss.getD k []) v).1 = some c →
      toColumnLoop er v ss =
        { er with ctxStack := .correlatedColumn c :: er.ctxStack } := by
  intro ss
  induction ss with
  | nil => intro k c hk; simp at hk
  | cons s rest ihs =>
    intro k c hk hprev hfound
    cases k with
    | zero =>
      simp only [List.getD_cons_zero] at hfound
      simp [toColumnLoop, hfound]
    | succ k' =>
      have h0 := hprev 0 (Nat.succ_pos k')
      simp only [List.getD_cons_zero] at h0
      simp only [List.getD_cons_succ] at hfound
      simp only [toColumnLoop, h0]
      exact ihs k' c (by simpa using hk)
        (fun j hj => by
          have := hprev (j + 1) (by omega)
          simpa using this)
        hfound

/-- If no scope in the loop resolves the name, the loop records the
unknown-column error. -/
theorem toColumnLoop_unknown (er : RewriterState) (v : ColumnName) :
    ∀ ss : List Schema, (∀ s ∈ ss, Schema.FindColumn s v = (none, none)) →
      toColumnLoop er v ss = { er with err := some (unknownColumnMsg v) } := by
  intro ss
  induction ss with
  | nil => intro _; rfl
  | cons s rest ihs =>
    intro h
    have h0 := h s (List.mem_cons_self s rest)
    simp only [toColumnLoop, h0]
    exact ihs (fun x hx => h x (List.mem_cons_of_mem s hx))

/-- C8: a column reference resolves first against the current schema;
otherwise the outer-schema stack is searched from innermost (last
pushed) to outermost scope and the first match is pushed wrapped as a
correlated column; if no scope resolves it, the rewrite fails with the
unknown-column error naming the column. -/
theorem claim8_column_resolution (er : RewriterState) (schema : Schema)
    (outers : List Schema) (v : ColumnName) :
    (∀ c, Schema.FindColumn schema v = (some c, none) →
      toColumn er schema outers v = { er with ctxStack := .column c :: er.ctxStack }) ∧
    (Schema.FindColumn schema v = (none, none) →
      ∀ k c, k < outers.reverse.length →
        (∀ j, j < k → Schema.FindColumn (outers.reverse.getD j []) v = (none, none)) →
        (Schema.FindColumn (outers.reverse.getD k []) v).1 = some c →
        toColumn er schema outers v =
          { er with ctxStack := .correlatedColumn c :: er.ctxStack }) ∧
    (Schema.FindColumn schema v = (none, none) →
      (∀ s ∈ outers, Schema.FindColumn s v = (none, none)) →
      toColumn er schema outers v = { er with err := some (unknownColumnMsg v) }) := by
  refine ⟨?_, ?_, ?_⟩
  · intro c hc
    simp [toColumn, hc]
  · intro hcur k c hk hprev hfound
    simp only [toColumn, hcur]
    exact toColumnLoop_first_match er v outers.reverse k c hk hprev hfound
  · intro hcur houters
    simp only [toColumn, hcur]
    exact toColumnLoop_unknown er v outers.reverse
      (fun s hs => houters s (List.mem_reverse.mp hs))

def c8er : RewriterState := ⟨[], .source [colB] false, none, true⟩

def c8name : ColumnName := ⟨"", "t", "a"⟩

/-- Witness for C8: the name `t.a` is absent from the current schema
`[b]`, absent from the outermost scope `[c]`, and found in the
innermost scope `[a]`: it resolves to a correlated column. -/
theorem claim8_column_resolution_witness :
    toColumn c8er [colB] [[colC], [colA]] c8name =
      { c8er with ctxStack := [.correlatedColumn colA] } :=
  (claim8_column_resolution c8er [colB] [[colC], [colA]] c8name).2.1 rfl 0 colA
    (by decide) (fun j hj => absurd hj (Nat.not_lt_zero j)) rfl

/-! ## Claim C7: BETWEEN expansion -/

/-- C7: over stack operands `(value, low, high)`, BETWEEN with NOT
builds `(value < low) OR (value > high)` and without NOT builds
`(value >= low) AND (value <= high)`; the cloned second occurrence of
the value is the same logical value; and the three operands are
replaced by exactly one result entry. -/
theorem claim7_between (er : RewriterState) (v lo hi : Expression)
    (rest : List Expression) (vType : FieldType)
    (hstk : er.ctxStack = hi :: lo :: v :: rest) :
    (betweenToExpression er true vType).ctxStack =
      .scalarFunc astOrOr
        [.scalarFunc astLT [v, lo] vType, .scalarFunc astGT [v.Clone, hi] vType] vType
        :: rest ∧
    (betweenToExpression er false vType).ctxStack =
      .scalarFunc astAndAnd
        [.scalarFunc astGE [v, lo] vType, .scalarFunc astLE [v.Clone, hi] vType] vType
        :: rest ∧
    v.Clone = v ∧
    (betweenToExpression er true vType).ctxStack.length + 2 = er.ctxStack.length ∧
    (betweenToExpression er false vType).ctxStack.length + 2 = er.ctxStack.length := by
  obtain ⟨stk, p, err, asc⟩ := er
  simp only at hstk
  subst hstk
  exact ⟨rfl, rfl, rfl, rfl, rfl⟩

def c7state : RewriterState :=
  ⟨[.column colC, .column colB, .column colA], .source [colA] false, none, true⟩

/-- Witness for C7 at the concrete stack `value = a, low = b, high = c`. -/
theorem claim7_between_witness :
    (betweenToExpression c7state true .ftiny).ctxStack =
      [.scalarFunc astOrOr
        [.scalarFunc astLT [.column colA, .column colB] .ftiny,
          .scalarFunc astGT [(Expression.column colA).Clone, .column colC] .ftiny] .ftiny] :=
  (claim7_between c7state (.column colA) (.column colB) (.column colC) [] .ftiny rfl).1

/-! ## Claim C9: outer-schema stack discipline of `buildSubquery` -/

/-- C9: `buildSubquery` pushes exactly one snapshot of the current
schema before the nested build and pops immediately after, so that —
provided the nested build itself returns the stack it was handed — the
stack is restored to its prior state on both the success and the error
exit paths. -/
theorem claim9_buildSubquery (st : List Schema) (cur : Schema)
    (build : List Schema → List Schema × Except String LogicalPlan)
    (hrestore : (build (st ++ [cur])).1 = st ++ [cur]) :
    (buildSubquery st cur build).1 = st ∧
    (∀ e, (build (st ++ [cur])).2 = .error e →
      buildSubquery st cur build = (st, .error e)) ∧
    (∀ np, (build (st ++ [cur])).2 = .ok np →
      buildSubquery st cur build = (st, .ok (np, cur))) := by
  have hpop : (build (st ++ [cur])).1.take ((build (st ++ [cur])).1.length - 1) = st := by
    rw [hrestore]
    simp
  refine ⟨?_, ?_, ?_⟩
  · cases hb : (build (st ++ [cur])).2 with
    | error e => simp [buildSubquery, hb, hpop]
    | ok np => simp [buildSubquery, hb, hpop]
  · intro e hb
    simp [buildSubquery, hb, hpop]
  · intro np hb
    simp [buildSubquery, hb, hpop]

def c9build : List Schema → List Schema × Except String LogicalPlan :=
  fun s => (s, .error "nested build failed")

/-- Witness for C9 with a concretely failing nested build: the outer
stack comes back unchanged and the error is propagated. -/
theorem claim9_buildSubquery_witness :
    buildSubquery [[colA]] [colB] c9build = ([[colA]], .error "nested build failed") :=
  (claim9_buildSubquery [[colA]] [colB] c9build rfl).2.1 _ rfl

/-! ## Claim C10: user-variable reads -/

/-- C10: reading a non-system variable never assigned in the session
pushes a typed-NULL constant; a variable present in the session map is
rewritten into a get-variable node; neither case records an error. -/
theorem claim10_userVariable (er : RewriterState) (users : List String) (vName : String)
    (herr : er.err = none) :
    ((strToLower vName ∈ users) →
      rewriteVariableNonSystem er users vName false =
        { er with ctxStack :=
            .scalarFunc astGetVar [datumToConstant (.str (strToLower vName)) .fstring] .fstring ::
              er.ctxStack } ∧
      (rewriteVariableNonSystem er users vName false).err = none) ∧
    ((strToLower vName ∉ users) →
      rewriteVariableNonSystem er users vName false =
        { er with ctxStack := .constant .null .fnull :: er.ctxStack } ∧
      (rewriteVariableNonSystem er users vName false).err = none) := by
  constructor
  · intro hmem
    refine ⟨?_, ?_⟩ <;> simp [rewriteVariableNonSystem, hmem, herr]
  · intro hmem
    refine ⟨?_, ?_⟩ <;> simp [rewriteVariableNonSystem, hmem, herr]

def c10state : RewriterState := ⟨[], .source [colA] false, none, true⟩

/-- Witness for C10: reading the never-assigned variable `@y` in a
session whose only user variable is `x` pushes a typed-NULL constant
without error, and reading `@x` builds a get-variable node. -/
theorem claim10_userVariable_witness :
    (rewriteVariableNonSystem c10state ["x"] "Y" false =
        { c10state with ctxStack := [.constant .null .fnull] } ∧
      (rewriteVariableNonSystem c10state ["x"] "Y" false).err = none) ∧
    (rewriteVariableNonSystem c10state ["x"] "x" false =
        { c10state with ctxStack :=
            [.scalarFunc astGetVar [datumToConstant (.str "x") .fstring] .fstring] } ∧
      (rewriteVariableNonSystem c10state ["x"] "x" false).err = none) :=
  ⟨(claim10_userVariable c10state ["x"] "Y" rfl).2 (by decide),
    (claim10_userVariable c10state ["x"] "x" rfl).1 (by decide)⟩

end Plan
